import Mathlib

/-!
Verification development for the ColossalAI MoE layer
(`colossalai/nn/layer/moe/layers.py`).

The tensor values are embedded over `ℚ` (exact arithmetic standing in for
floating point, as the spec asks only for semantic equivalence, not bitwise
floating equality).  A tensor of shape `(a, b, ...)` is embedded as a curried
function `Fin a → Fin b → ... → ℚ`.
-/

namespace ColossalMoe

/-- Dense dispatch, the non-kernel path of `MoeLayer.forward`
(`layers.py` lines 83-84):
`dispatch_data = torch.matmul(sec_mask_f.permute(1, 2, 0), tokens)`.
`sec_mask_f` has shape `(N, E, C)`; after the permutation it is `(E, C, N)`
and the matmul with the `(N, D)` tokens contracts over the token index,
giving the `(E, C, D)` dispatched buffer. -/
def dispatchDense {N E C D : ℕ} (sec_mask : Fin N → Fin E → Fin C → ℚ)
    (tokens : Fin N → Fin D → ℚ) : Fin E → Fin C → Fin D → ℚ :=
  fun e c d => ∑ n, sec_mask n e c * tokens n d

/-- Row-major flattening of the two leading dimensions of a tensor,
embedding `Tensor.view(E * C, ...)` of an `(E, C, ...)` tensor:
flat index `i = c + C * e`, which is exactly `finProdFinEquiv` on `(e, c)`. -/
def flatEC {E C : ℕ} {α : Type} (x : Fin E → Fin C → α) : Fin (E * C) → α :=
  fun i => x (finProdFinEquiv.symm i).1 (finProdFinEquiv.symm i).2

/-- Dense combine, the non-kernel path of `MoeLayer.forward`
(`layers.py` lines 98-102): the `(N, E, C)` combine weights are viewed as
`(N, E*C)`, the `(E, C, D)` expert output as `(E*C, D)`, and the result is
their matmul, an `(N, D)` batch. -/
def combineDense {N E C D : ℕ} (combine_weights : Fin N → Fin E → Fin C → ℚ)
    (expert_output : Fin E → Fin C → Fin D → ℚ) : Fin N → Fin D → ℚ :=
  fun n d => ∑ i : Fin (E * C), flatEC (combine_weights n) i * flatEC expert_output i d

/-- The row-major flattened matmul of `combineDense` contracts over the pair
of indices `(e, c)`, i.e. it is the double sum over experts and slots. -/
lemma combineDense_eq_double {N E C D : ℕ}
    (combine_weights : Fin N → Fin E → Fin C → ℚ)
    (expert_output : Fin E → Fin C → Fin D → ℚ) (n : Fin N) (d : Fin D) :
    combineDense combine_weights expert_output n d
      = ∑ e, ∑ c, combine_weights n e c * expert_output e c d := by
  unfold combineDense flatEC
  rw [← Equiv.sum_comp (finProdFinEquiv (m := E) (n := C))
    (fun i => combine_weights n (finProdFinEquiv.symm i).1 (finProdFinEquiv.symm i).2 *
      expert_output (finProdFinEquiv.symm i).1 (finProdFinEquiv.symm i).2 d)]
  simp [Fintype.sum_prod_type]

/-- The `(N, E, C)` 0/1 section mask induced by a top-1 assignment of each
token to an `(expert, slot)` cell; this is the shape of `sec_mask_f` fed to
the dense dispatch matmul. -/
def maskOfAssign {N E C : ℕ} (assign : Fin N → Fin E × Fin C) :
    Fin N → Fin E → Fin C → ℚ :=
  fun n e c => if assign n = (e, c) then 1 else 0

/-- The `(N, E, C)` combine weights induced by a top-1 assignment: token `n`
carries its single combine weight `w n` in its assigned cell and zero
elsewhere. -/
def cwOfAssign {N E C : ℕ} (assign : Fin N → Fin E × Fin C) (w : Fin N → ℚ) :
    Fin N → Fin E → Fin C → ℚ :=
  fun n e c => if assign n = (e, c) then w n else 0

/-- With a top-1 injective assignment (no capacity overflow: every token owns
its own cell), the dispatched buffer holds each assigned token exactly. -/
lemma dispatchDense_assign {N E C D : ℕ} (assign : Fin N → Fin E × Fin C)
    (tokens : Fin N → Fin D → ℚ) (hinj : Function.Injective assign)
    (n : Fin N) (d : Fin D) :
    dispatchDense (maskOfAssign assign) tokens (assign n).1 (assign n).2 d
      = tokens n d := by
  unfold dispatchDense maskOfAssign
  rw [Finset.sum_eq_single n]
  · simp
  · intro m _ hmn
    have : assign m ≠ assign n := fun h => hmn (hinj h)
    simp [this]
  · simp

/-- C2. Token conservation through the dense matmul path: with `top_k = 1`,
no capacity overflow (the assignment is injective) and identity expert
compute, dispatch followed by combine returns each token scaled by its single
combine weight; if every weight is `1` the output equals the input batch. -/
theorem dispatch_combine_token_conservation {N E C D : ℕ}
    (assign : Fin N → Fin E × Fin C) (w : Fin N → ℚ)
    (tokens : Fin N → Fin D → ℚ)
    (hinj : Function.Injective assign) :
    (∀ n d, combineDense (cwOfAssign assign w)
        (dispatchDense (maskOfAssign assign) tokens) n d = w n * tokens n d)
    ∧ ((∀ n, w n = 1) →
        combineDense (cwOfAssign assign w)
          (dispatchDense (maskOfAssign assign) tokens) = tokens) := by
  have key : ∀ n d, combineDense (cwOfAssign assign w)
      (dispatchDense (maskOfAssign assign) tokens) n d = w n * tokens n d := by
    intro n d
    rw [combineDense_eq_double]
    have h1 : ∀ e c, cwOfAssign assign w n e c *
        dispatchDense (maskOfAssign assign) tokens e c d
        = if assign n = (e, c) then
            w n * dispatchDense (maskOfAssign assign) tokens e c d else 0 := by
      intro e c
      unfold cwOfAssign
      by_cases h : assign n = (e, c) <;> simp [h]
    calc ∑ e, ∑ c, cwOfAssign assign w n e c *
            dispatchDense (maskOfAssign assign) tokens e c d
        = ∑ p : Fin E × Fin C, if assign n = p then
            w n * dispatchDense (maskOfAssign assign) tokens p.1 p.2 d else 0 := by
          rw [Fintype.sum_prod_type]
          refine Finset.sum_congr rfl fun e _ => Finset.sum_congr rfl fun c _ => ?_
          rw [h1]
      _ = w n * dispatchDense (maskOfAssign assign) tokens (assign n).1 (assign n).2 d := by
          rw [Fintype.sum_ite_eq]
      _ = w n * tokens n d := by rw [dispatchDense_assign assign tokens hinj]
  refine ⟨key, fun hw => ?_⟩
  funext n d
  rw [key n d, hw n, one_mul]

/-- C2 witness: two tokens, two experts, capacity one, token `n` assigned to
expert `n`, all combine weights `1`; the round trip is the identity. -/
theorem dispatch_combine_token_conservation_witness :
    Function.Injective (fun n : Fin 2 => ((n, 0) : Fin 2 × Fin 1))
    ∧ ((∀ n d, combineDense
          (cwOfAssign (fun n : Fin 2 => ((n, 0) : Fin 2 × Fin 1)) (fun _ => 1))
          (dispatchDense
            (maskOfAssign (fun n : Fin 2 => ((n, 0) : Fin 2 × Fin 1)))
            (fun (n : Fin 2) (_ : Fin 1) => (n : ℚ) + 3)) n d = 1 * ((n : ℚ) + 3))
        ∧ ((∀ _n : Fin 2, (1 : ℚ) = 1) →
            combineDense
              (cwOfAssign (fun n : Fin 2 => ((n, 0) : Fin 2 × Fin 1)) (fun _ => 1))
              (dispatchDense
                (maskOfAssign (fun n : Fin 2 => ((n, 0) : Fin 2 × Fin 1)))
                (fun (n : Fin 2) (_ : Fin 1) => (n : ℚ) + 3))
              = fun (n : Fin 2) (_ : Fin 1) => (n : ℚ) + 3)) :=
  ⟨by decide, dispatch_combine_token_conservation
    (fun n : Fin 2 => ((n, 0) : Fin 2 × Fin 1)) (fun _ => 1)
    (fun (n : Fin 2) (_ : Fin 1) => (n : ℚ) + 3) (by decide)⟩

/-- Modelled from the spec: the kernel dispatch `MoeDispatch`
(`_operation.py`, not under `src/`), taken by `MoeLayer.forward` when
`use_kernel` is true (`layers.py` lines 79-81).  Spec section 4.4: "for each
(token, expert, slot) triple in the mask, copy the token vector into
buffer[expert, slot]; unfilled cells are zero" — an explicit indexed copy,
embedded as a left fold over the tokens in order that overwrites the cell
whenever the mask selects it. -/
def dispatchKernel {N E C D : ℕ} (mask : Fin N → Fin E → Fin C → Bool)
    (tokens : Fin N → Fin D → ℚ) : Fin E → Fin C → Fin D → ℚ :=
  fun e c d =>
    List.foldl (fun acc n => if mask n e c then tokens n d else acc) 0 (List.finRange N)

/-- Modelled from the spec: the kernel combine `MoeCombine`
(`_operation.py`, not under `src/`), taken by `MoeLayer.forward` when
`use_kernel` is true (`layers.py` lines 95-97).  Spec section 4.4: "for each
token, sum over its (expert, slot) assignments of
weight * expert_output[expert, slot]". -/
def combineKernel {N E C D : ℕ} (mask : Fin N → Fin E → Fin C → Bool)
    (combine_weights : Fin N → Fin E → Fin C → ℚ)
    (expert_output : Fin E → Fin C → Fin D → ℚ) : Fin N → Fin D → ℚ :=
  fun n d => ∑ e, ∑ c,
    if mask n e c then combine_weights n e c * expert_output e c d else 0

/-- The `ℚ`-valued indicator of a boolean section mask, i.e.
`sec_mask.type_as(inputs)` feeding the dense matmul path. -/
def maskInd {N E C : ℕ} (mask : Fin N → Fin E → Fin C → Bool) :
    Fin N → Fin E → Fin C → ℚ :=
  fun n e c => if mask n e c then 1 else 0

/-- A copy fold over indices none of which is selected leaves the
accumulator unchanged. -/
lemma foldl_copy_of_none {N : ℕ} (f : Fin N → Bool) (g : Fin N → ℚ)
    (l : List (Fin N)) (acc : ℚ) (h : ∀ n ∈ l, f n = false) :
    List.foldl (fun a n => if f n then g n else a) acc l = acc := by
  induction l generalizing acc with
  | nil => rfl
  | cons hd tl ih =>
      have hhd : f hd = false := h hd (List.mem_cons_self hd tl)
      simp only [List.foldl_cons, hhd, if_neg, Bool.false_eq_true, not_false_eq_true]
      exact ih acc (fun n hn => h n (List.mem_cons_of_mem hd hn))

/-- A copy fold starting from the value of the unique selected index keeps
that value: every selected index in the list carries the same value. -/
lemma foldl_copy_const {N : ℕ} (f : Fin N → Bool) (g : Fin N → ℚ)
    (l : List (Fin N)) (n0 : Fin N) (h : ∀ m ∈ l, f m = true → g m = g n0) :
    List.foldl (fun a n => if f n then g n else a) (g n0) l = g n0 := by
  induction l with
  | nil => rfl
  | cons hd tl ih =>
      simp only [List.foldl_cons]
      by_cases hhd : f hd = true
      · rw [if_pos hhd, h hd (List.mem_cons_self hd tl) hhd]
        exact ih (fun m hm hf => h m (List.mem_cons_of_mem hd hm) hf)
      · rw [if_neg hhd]
        exact ih (fun m hm hf => h m (List.mem_cons_of_mem hd hm) hf)

/-- A copy fold over a list containing a selected index, all of whose
selected members are that index, returns that index's value. -/
lemma foldl_copy_unique {N : ℕ} (f : Fin N → Bool) (g : Fin N → ℚ)
    (l : List (Fin N)) (n0 : Fin N) (hn0 : f n0 = true) (hmem : n0 ∈ l)
    (huniq : ∀ m ∈ l, f m = true → m = n0) (acc : ℚ) :
    List.foldl (fun a n => if f n then g n else a) acc l = g n0 := by
  induction l generalizing acc with
  | nil => exact absurd hmem (List.not_mem_nil n0)
  | cons hd tl ih =>
      simp only [List.foldl_cons]
      by_cases hhd : f hd = true
      · have hdeq : hd = n0 := huniq hd (List.mem_cons_self hd tl) hhd
        rw [if_pos hhd, hdeq]
        exact foldl_copy_const f g tl n0
          (fun m hm hf => by rw [huniq m (List.mem_cons_of_mem hd hm) hf])
      · rw [if_neg hhd]
        have hne : n0 ≠ hd := fun h => hhd (h ▸ hn0)
        have hmem2 : n0 ∈ tl := by
          rcases List.mem_cons.mp hmem with h | h
          · exact absurd h hne
          · exact h
        exact ih hmem2 (fun m hm hf => huniq m (List.mem_cons_of_mem hd hm) hf) acc

/-- C1. The kernel (indexed-copy) dispatch/combine path and the dense matmul
path agree exactly: under the mask invariant that each `(expert, slot)` cell
holds at most one token, and with combine weights vanishing off the mask, the
kernel dispatch equals the matmul dispatch and the kernel combine equals the
flattened matmul combine. -/
theorem kernel_dense_equivalence {N E C D : ℕ}
    (mask : Fin N → Fin E → Fin C → Bool)
    (combine_weights : Fin N → Fin E → Fin C → ℚ)
    (tokens : Fin N → Fin D → ℚ)
    (expert_output : Fin E → Fin C → Fin D → ℚ)
    (hcell : ∀ e c n m, mask n e c = true → mask m e c = true → n = m)
    (hcw : ∀ n e c, mask n e c = false → combine_weights n e c = 0) :
    dispatchKernel mask tokens = dispatchDense (maskInd mask) tokens
    ∧ combineKernel mask combine_weights expert_output
        = combineDense combine_weights expert_output := by
  constructor
  · funext e c d
    unfold dispatchKernel dispatchDense maskInd
    have hsum : ∑ n, (if mask n e c then (1 : ℚ) else 0) * tokens n d
        = ∑ n, if mask n e c then tokens n d else 0 := by
      refine Finset.sum_congr rfl fun n _ => ?_
      by_cases h : mask n e c <;> simp [h]
    rw [hsum]
    by_cases hex : ∃ n, mask n e c = true
    · obtain ⟨n0, hn0⟩ := hex
      rw [foldl_copy_unique (fun n => mask n e c) (fun n => tokens n d)
        (List.finRange N) n0 hn0 (List.mem_finRange n0)
        (fun m _ hf => hcell e c m n0 hf hn0) 0]
      rw [Finset.sum_eq_single n0]
      · rw [if_pos hn0]
      · intro m _ hmn
        have : mask m e c = false := by
          by_contra hc
          exact hmn (hcell e c m n0 (Bool.of_not_eq_false hc) hn0)
        simp [this]
      · simp
    · push_neg at hex
      rw [foldl_copy_of_none (fun n => mask n e c) (fun n => tokens n d)
        (List.finRange N) 0
        (fun n _ => Bool.not_eq_true (mask n e c) |>.mp (hex n))]
      exact (Finset.sum_eq_zero fun n _ => if_neg (hex n)).symm
  · funext n d
    unfold combineKernel
    rw [combineDense_eq_double]
    refine Finset.sum_congr rfl fun e _ => Finset.sum_congr rfl fun c _ => ?_
    by_cases h : mask n e c = true
    · rw [if_pos h]
    · rw [if_neg h]
      rw [hcw n e c (Bool.not_eq_true (mask n e c) |>.mp h), zero_mul]

/-- C1 witness: two tokens, one expert, two slots, token `n` in slot `n`;
the kernel and dense paths produce the same buffer and the same output. -/
theorem kernel_dense_equivalence_witness :
    (∀ (_e : Fin 1) (c : Fin 2) (n m : Fin 2),
        (decide (n.val = c.val)) = true → (decide (m.val = c.val)) = true → n = m)
    ∧ (∀ (n : Fin 2) (_e : Fin 1) (c : Fin 2),
        (decide (n.val = c.val)) = false →
        (if n.val = c.val then ((1 : ℚ) / 2) else 0) = 0)
    ∧ (dispatchKernel (fun (n : Fin 2) (_ : Fin 1) (c : Fin 2) => decide (n.val = c.val))
          (fun (n : Fin 2) (_ : Fin 1) => (n : ℚ) + 1)
        = dispatchDense
            (maskInd (fun (n : Fin 2) (_ : Fin 1) (c : Fin 2) => decide (n.val = c.val)))
            (fun (n : Fin 2) (_ : Fin 1) => (n : ℚ) + 1)
      ∧ combineKernel (fun (n : Fin 2) (_ : Fin 1) (c : Fin 2) => decide (n.val = c.val))
          (fun (n : Fin 2) (_ : Fin 1) (c : Fin 2) =>
            if n.val = c.val then ((1 : ℚ) / 2) else 0)
          (fun (_ : Fin 1) (c : Fin 2) (_ : Fin 1) => (c : ℚ) * 4)
        = combineDense
            (fun (n : Fin 2) (_ : Fin 1) (c : Fin 2) =>
              if n.val = c.val then ((1 : ℚ) / 2) else 0)
            (fun (_ : Fin 1) (c : Fin 2) (_ : Fin 1) => (c : ℚ) * 4)) :=
  ⟨by decide, by decide,
    kernel_dense_equivalence
      (fun (n : Fin 2) (_ : Fin 1) (c : Fin 2) => decide (n.val = c.val))
      (fun (n : Fin 2) (_ : Fin 1) (c : Fin 2) =>
        if n.val = c.val then ((1 : ℚ) / 2) else 0)
      (fun (n : Fin 2) (_ : Fin 1) => (n : ℚ) + 1)
      (fun (_ : Fin 1) (c : Fin 2) (_ : Fin 1) => (c : ℚ) * 4)
      (by decide) (by decide)⟩

/-- Torch floating dtypes relevant to the gate projection; `f32` is
`torch.float`. -/
inductive DType
  | f16
  | bf16
  | f32
  | f64
deriving DecidableEq

/-- Promotion precedence of a floating dtype (torch type-promotion model for
binary operations between floating tensors, an external collaborator). -/
def DType.rank : DType → ℕ
  | .f16 => 1
  | .bf16 => 1
  | .f32 => 2
  | .f64 => 3

/-- Torch result dtype of a binary operation between two floating tensors:
the higher-precedence dtype; `f16` with `bf16` promotes to `f32`. -/
def promoteDType (a b : DType) : DType :=
  if a = b then a
  else if a.rank < b.rank then b
  else if b.rank < a.rank then a
  else .f32

/-- A matrix tagged with its floating dtype; the values themselves are exact
rationals (the dtype tag tracks precision bookkeeping, not rounding). -/
structure TMat (m n : ℕ) where
  dtype : DType
  val : Fin m → Fin n → ℚ

/-- Embedding of `Tensor.to(torch.float)` (`layers.py` lines 72-73): the
dtype becomes `f32`, the values are carried over. -/
def TMat.toFloat {m n : ℕ} (x : TMat m n) : TMat m n :=
  ⟨.f32, x.val⟩

/-- Embedding of `F.linear(input, weight)` with no bias argument
(`layers.py` line 74): the matmul of the input with the transposed weight. -/
def linearNoBias {n k m : ℕ} (x : TMat n k) (w : TMat m k) : TMat n m :=
  ⟨promoteDType x.dtype w.dtype, fun i j => ∑ t, x.val i t * w.val j t⟩

/-- The gate projection of `MoeLayer.forward` (`layers.py` lines 71-74):
both the flattened tokens and the gate weight are cast to `torch.float`
before the bias-free linear projection. -/
def gateOutput {N D E : ℕ} (tokens : TMat N D) (gate_weight : TMat E D) :
    TMat N E :=
  linearNoBias (TMat.toFloat tokens) (TMat.toFloat gate_weight)

/-- C4. The routing logits are computed at float32 precision: whatever the
dtypes of the input tokens and of the gate weight, the `(N, E)` gate output
carries dtype `f32`. -/
theorem gate_output_is_float32 {N D E : ℕ} (tokens : TMat N D)
    (gate_weight : TMat E D) :
    (gateOutput tokens gate_weight).dtype = DType.f32 := by
  simp [gateOutput, linearNoBias, TMat.toFloat, promoteDType]

/-- C10. The gate projection applies no bias: every routing logit is exactly
the dot product of the (float32-cast) token row with the corresponding gate
weight row, and a token row of all zeros yields all-zero routing logits. -/
theorem gate_no_bias {N D E : ℕ} (tokens : TMat N D) (gate_weight : TMat E D)
    (i : Fin N) (hzero : ∀ k, tokens.val i k = 0) :
    (∀ j e, (gateOutput tokens gate_weight).val j e
        = ∑ k, tokens.val j k * gate_weight.val e k)
    ∧ ∀ e, (gateOutput tokens gate_weight).val i e = 0 := by
  constructor
  · intro j e
    rfl
  · intro e
    show (∑ k, tokens.val i k * gate_weight.val e k) = 0
    exact Finset.sum_eq_zero fun k _ => by rw [hzero k, zero_mul]

/-- C10 witness: a single zero token of dimension one against a half-precision
input and a one-expert gate; the logit is the plain dot product and is zero. -/
theorem gate_no_bias_witness :
    (∀ k : Fin 1, (⟨DType.f16, fun _ _ => 0⟩ : TMat 1 1).val 0 k = 0)
    ∧ ((∀ j e, (gateOutput (⟨DType.f16, fun _ _ => 0⟩ : TMat 1 1)
            (⟨DType.f64, fun _ _ => 5⟩ : TMat 1 1)).val j e
          = ∑ k, (⟨DType.f16, fun _ _ => 0⟩ : TMat 1 1).val j k *
              (⟨DType.f64, fun _ _ => 5⟩ : TMat 1 1).val e k)
        ∧ ∀ e, (gateOutput (⟨DType.f16, fun _ _ => 0⟩ : TMat 1 1)
            (⟨DType.f64, fun _ _ => 5⟩ : TMat 1 1)).val 0 e = 0) :=
  ⟨by decide, gate_no_bias (⟨DType.f16, fun _ _ => 0⟩ : TMat 1 1)
    (⟨DType.f64, fun _ _ => 5⟩ : TMat 1 1) 0 (by decide)⟩

/-- Communication-stage selection of `MoeLayer.forward`
(`layers.py` lines 87-93): the comm name of the experts picks the
all-to-all path (`a2a_process`) or the all-gather/reduce-scatter path
(`tp_process`); any other name raises `NotImplementedError`.  The two
processes themselves wrap distributed collectives (external collaborators)
and are passed in as functions on the dispatched buffer. -/
def commProcess {α : Type} (comm_name : String) (a2a tp : α → α)
    (dispatch_data : α) : Except String α :=
  if comm_name = "all_to_all" then Except.ok (a2a dispatch_data)
  else if comm_name = "all_gather" then Except.ok (tp dispatch_data)
  else Except.error
    "This kind of communication has not been implemented yet.\n Please use Experts build function."

/-- C5. Comm-name dispatching never defaults silently: `all_to_all` takes
the a2a path, `all_gather` takes the tensor-parallel path, and every other
comm name is a fatal not-implemented error. -/
theorem comm_name_selection {α : Type} (a2a tp : α → α) (x : α) (s : String)
    (h1 : s ≠ "all_to_all") (h2 : s ≠ "all_gather") :
    commProcess "all_to_all" a2a tp x = Except.ok (a2a x)
    ∧ commProcess "all_gather" a2a tp x = Except.ok (tp x)
    ∧ ∃ msg, commProcess s a2a tp x = Except.error msg := by
  refine ⟨rfl, rfl, ?_⟩
  unfold commProcess
  rw [if_neg h1, if_neg h2]
  exact ⟨_, rfl⟩

/-- C5 witness: the comm name `broadcast` is rejected while the two
supported names take their respective paths, on a one-element buffer. -/
theorem comm_name_selection_witness :
    ("broadcast" ≠ "all_to_all") ∧ ("broadcast" ≠ "all_gather")
    ∧ (commProcess "all_to_all" (fun q : ℚ => q + 1) (fun q => q * 2) 3
          = Except.ok ((3 : ℚ) + 1)
        ∧ commProcess "all_gather" (fun q : ℚ => q + 1) (fun q => q * 2) 3
          = Except.ok ((3 : ℚ) * 2)
        ∧ ∃ msg, commProcess "broadcast" (fun q : ℚ => q + 1) (fun q => q * 2) 3
          = Except.error msg) :=
  ⟨by decide, by decide,
    comm_name_selection (fun q : ℚ => q + 1) (fun q => q * 2) 3 "broadcast"
      (by decide) (by decide)⟩

/-- The noise generator chosen by `MoeModule.__init__`; the Gaussian one
carries the expert count it is built with (`NormalNoiseGenerator(num_experts)`). -/
inductive NoisyFunc
  | uniformNoise
  | normalNoise (num_experts : ℕ)
deriving DecidableEq

/-- The router class chosen by `MoeModule.__init__` from `top_k`. -/
inductive RouterChoice
  | top1
  | top2
deriving DecidableEq

/-- The validating head of `MoeModule.__init__` (`layers.py` lines 154-168):
first the noisy policy is resolved (`None` means no noise, `"Jitter"` the
uniform generator, `"Gaussian"` the normal generator with the expert count,
anything else raises), then `top_k` selects `Top1Router` or `Top2Router`,
any other value raising `NotImplementedError`.  `top_k` is an integer, so it
is embedded as `ℤ` to cover values below `1`. -/
def moeModuleInitRouting (num_experts : ℕ) (top_k : ℤ)
    (noisy_policy : Option String) :
    Except String (Option NoisyFunc × RouterChoice) := do
  let noisy_func ← match noisy_policy with
    | none => pure none
    | some p =>
        if p = "Jitter" then pure (some NoisyFunc.uniformNoise)
        else if p = "Gaussian" then pure (some (NoisyFunc.normalNoise num_experts))
        else throw "Unsupported input noisy policy"
  let router ←
    if top_k = 1 then pure RouterChoice.top1
    else if top_k = 2 then pure RouterChoice.top2
    else throw "top_k > 2 is not supported yet"
  pure (noisy_func, router)

/-- C6. `MoeModule` construction succeeds for every `top_k` in `{1, 2}`
combined with each of the three noisy policies (no noise, `Jitter`,
`Gaussian`), selecting the matching router and noise generator; it raises a
fatal configuration error for every integer `top_k` outside `{1, 2}`
(equivalently `top_k > 2` or `top_k < 1`) combined with each of the three
valid policies, and for every other noisy-policy string combined with every
integer `top_k` whatsoever (the policy is checked first). -/
theorem moe_module_init_validation (num_experts : ℕ) (tk : ℤ) (p : String)
    (htk : 2 < tk ∨ tk < 1) (hp1 : p ≠ "Jitter") (hp2 : p ≠ "Gaussian") :
    moeModuleInitRouting num_experts 1 none
        = Except.ok (none, RouterChoice.top1)
    ∧ moeModuleInitRouting num_experts 2 none
        = Except.ok (none, RouterChoice.top2)
    ∧ moeModuleInitRouting num_experts 1 (some "Jitter")
        = Except.ok (some NoisyFunc.uniformNoise, RouterChoice.top1)
    ∧ moeModuleInitRouting num_experts 2 (some "Jitter")
        = Except.ok (some NoisyFunc.uniformNoise, RouterChoice.top2)
    ∧ moeModuleInitRouting num_experts 1 (some "Gaussian")
        = Except.ok (some (NoisyFunc.normalNoise num_experts), RouterChoice.top1)
    ∧ moeModuleInitRouting num_experts 2 (some "Gaussian")
        = Except.ok (some (NoisyFunc.normalNoise num_experts), RouterChoice.top2)
    ∧ moeModuleInitRouting num_experts tk none
        = Except.error "top_k > 2 is not supported yet"
    ∧ moeModuleInitRouting num_experts tk (some "Jitter")
        = Except.error "top_k > 2 is not supported yet"
    ∧ moeModuleInitRouting num_experts tk (some "Gaussian")
        = Except.error "top_k > 2 is not supported yet"
    ∧ ∀ k : ℤ, moeModuleInitRouting num_experts k (some p)
        = Except.error "Unsupported input noisy policy" := by
  have htk1 : tk ≠ 1 := by omega
  have htk2 : tk ≠ 2 := by omega
  refine ⟨rfl, rfl, rfl, rfl, rfl, rfl, ?_, ?_, ?_, fun k => ?_⟩
  · unfold moeModuleInitRouting
    simp [htk1, htk2]
    rfl
  · unfold moeModuleInitRouting
    simp [htk1, htk2]
    rfl
  · unfold moeModuleInitRouting
    simp [htk1, htk2]
    rfl
  · unfold moeModuleInitRouting
    simp [hp1, hp2]
    rfl

/-- C6 witness: `top_k = 3` is rejected with each of the three valid
policies, the lowercase policy `jitter` (not the supported spelling
`Jitter`) is rejected for every integer `top_k` — in particular with the
valid `top_k = 1` — while the six supported combinations construct their
routers. -/
theorem moe_module_init_validation_witness :
    ((2 : ℤ) < 3 ∨ (3 : ℤ) < 1) ∧ ("jitter" ≠ "Jitter") ∧ ("jitter" ≠ "Gaussian")
    ∧ (moeModuleInitRouting 4 1 none = Except.ok (none, RouterChoice.top1)
      ∧ moeModuleInitRouting 4 2 none = Except.ok (none, RouterChoice.top2)
      ∧ moeModuleInitRouting 4 1 (some "Jitter")
          = Except.ok (some NoisyFunc.uniformNoise, RouterChoice.top1)
      ∧ moeModuleInitRouting 4 2 (some "Jitter")
          = Except.ok (some NoisyFunc.uniformNoise, RouterChoice.top2)
      ∧ moeModuleInitRouting 4 1 (some "Gaussian")
          = Except.ok (some (NoisyFunc.normalNoise 4), RouterChoice.top1)
      ∧ moeModuleInitRouting 4 2 (some "Gaussian")
          = Except.ok (some (NoisyFunc.normalNoise 4), RouterChoice.top2)
      ∧ moeModuleInitRouting 4 3 none
          = Except.error "top_k > 2 is not supported yet"
      ∧ moeModuleInitRouting 4 3 (some "Jitter")
          = Except.error "top_k > 2 is not supported yet"
      ∧ moeModuleInitRouting 4 3 (some "Gaussian")
          = Except.error "top_k > 2 is not supported yet"
      ∧ ∀ k : ℤ, moeModuleInitRouting 4 k (some "jitter")
          = Except.error "Unsupported input noisy policy") :=
  ⟨by decide, by decide, by decide,
    moe_module_init_validation 4 3 "jitter" (by decide) (by decide) (by decide)⟩

/-- Modelled from the spec: the router's buffered auxiliary-loss slot
(`routers.py` is not under `src/`).  Spec sections 3 and 9: the loss is
"buffered on the router instance until popped", with `accumulate(value)` and
a pop that "returns the current value and resets to zero".  `popCount`
counts the pop invocations so that "exactly once per forward call" is a
provable statement. -/
structure RouterState where
  lossBuf : ℚ
  popCount : ℕ
deriving DecidableEq

/-- Modelled from the spec: the router accumulating its load-balancing loss
for the current invocation into the buffered slot. -/
def accumulate_routing_loss (s : RouterState) (v : ℚ) : RouterState :=
  ⟨s.lossBuf + v, s.popCount⟩

/-- Modelled from the spec: `MoeRouter.pop_routing_loss` — returns the
buffered loss, clears the buffer, and counts as one pop. -/
def pop_routing_loss (s : RouterState) : ℚ × RouterState :=
  (s.lossBuf, ⟨0, s.popCount + 1⟩)

/-- Embedding of `Tensor.reshape(-1, d)` on the shape level: defined exactly
when `d` is positive and divides the element count, and the result is the
`(numel / d, d)` shape. -/
def reshapeNeg1 (d : ℕ) (shape : List ℕ) : Option (List ℕ) :=
  if 0 < d ∧ d ∣ shape.prod then some [shape.prod / d, d] else none

/-- Embedding of `Tensor.reshape(target)` on the shape level: defined exactly
when the element counts agree. -/
def reshapeTo (target cur : List ℕ) : Option (List ℕ) :=
  if cur.prod = target.prod then some target else none

/-- Shape-and-router-state embedding of `MoeLayer.forward`
(`layers.py` lines 67-106): the input of arbitrary shape is flattened to
`(-1, d_model)` (line 69) giving `N` tokens; the router accumulates this
invocation's loss (line 77, loss computation modelled from the spec since
`routers.py` is not under `src/`); dispatch, communication and expert
compute carry an `(E, C, d_model)` buffer and combine returns an
`(N, d_model)` batch (lines 79-102), which is reshaped back to the input
shape (line 104); finally the loss is popped exactly once (line 105). -/
def moeLayerForwardShape (d_model : ℕ) (routeLoss : ℚ) (inputShape : List ℕ)
    (rs : RouterState) : Option (List ℕ × ℚ × RouterState) :=
  match reshapeNeg1 d_model inputShape with
  | none => none
  | some tokensShape =>
      let n := tokensShape.headD 0
      let rs1 := accumulate_routing_loss rs routeLoss
      match reshapeTo inputShape [n, d_model] with
      | none => none
      | some outShape =>
          let pl := pop_routing_loss rs1
          some (outShape, pl.1, pl.2)

/-- C3. Whenever the flatten step is well formed (`d_model` positive and
dividing the element count), `MoeLayer.forward` returns a pair whose output
shape is exactly the input shape and whose loss component is the router's
buffered loss, read and cleared by exactly one pop: the returned router
state has an empty buffer and a pop count incremented by one. -/
theorem moe_layer_forward_shape_and_pop (d_model : ℕ) (routeLoss : ℚ)
    (inputShape : List ℕ) (rs : RouterState)
    (hd : 0 < d_model) (hdvd : d_model ∣ inputShape.prod) :
    moeLayerForwardShape d_model routeLoss inputShape rs
      = some (inputShape, rs.lossBuf + routeLoss,
          ⟨0, rs.popCount + 1⟩) := by
  unfold moeLayerForwardShape reshapeNeg1
  rw [if_pos ⟨hd, hdvd⟩]
  show (match reshapeTo inputShape [inputShape.prod / d_model, d_model] with
    | none => none
    | some outShape =>
        some (outShape, (pop_routing_loss (accumulate_routing_loss rs routeLoss)).1,
          (pop_routing_loss (accumulate_routing_loss rs routeLoss)).2))
    = some (inputShape, rs.lossBuf + routeLoss, ⟨0, rs.popCount + 1⟩)
  unfold reshapeTo
  have hprod : ([inputShape.prod / d_model, d_model] : List ℕ).prod
      = inputShape.prod := by
    simp [Nat.div_mul_cancel hdvd]
  rw [if_pos hprod]
  rfl

/-- C3 witness: a `(2, 3)` input with `d_model = 3`, a previously
accumulated loss of `5` and this call contributing `7`: the forward returns
shape `(2, 3)`, loss `12`, and a router state cleared after exactly one pop. -/
theorem moe_layer_forward_shape_and_pop_witness :
    0 < 3 ∧ (3 ∣ ([2, 3] : List ℕ).prod)
    ∧ moeLayerForwardShape 3 7 [2, 3] ⟨5, 0⟩
      = some ([2, 3], (5 : ℚ) + 7, ⟨0, 0 + 1⟩) :=
  ⟨by decide, by decide,
    moe_layer_forward_shape_and_pop 3 7 [2, 3] ⟨5, 0⟩ (by decide) (by decide)⟩

/-- C8. `MoeLayer.forward` accepts any number of leading dimensions before a
final `d_model` dimension: the flatten step produces `(leading.prod, d_model)`
tokens — the token count is the product of the leading dimensions — and the
forward call succeeds, returning the original input shape. -/
theorem moe_layer_forward_leading_dims (d_model : ℕ) (leading : List ℕ)
    (routeLoss : ℚ) (rs : RouterState) (hd : 0 < d_model) :
    reshapeNeg1 d_model (leading ++ [d_model]) = some [leading.prod, d_model]
    ∧ moeLayerForwardShape d_model routeLoss (leading ++ [d_model]) rs
      = some (leading ++ [d_model], rs.lossBuf + routeLoss,
          ⟨0, rs.popCount + 1⟩) := by
  have hprod : (leading ++ [d_model]).prod = leading.prod * d_model := by
    simp
  have hdvd : d_model ∣ (leading ++ [d_model]).prod := by
    rw [hprod]; exact Dvd.intro leading.prod (Nat.mul_comm d_model leading.prod)
  constructor
  · unfold reshapeNeg1
    rw [if_pos ⟨hd, hdvd⟩, hprod, Nat.mul_div_cancel leading.prod hd]
  · exact moe_layer_forward_shape_and_pop d_model routeLoss
      (leading ++ [d_model]) rs hd hdvd

/-- C8 witness: a three-dimensional `(2, 4, 5)` input with `d_model = 5`
flattens to `8 = 2 * 4` tokens and the forward returns the `(2, 4, 5)`
shape. -/
theorem moe_layer_forward_leading_dims_witness :
    0 < 5
    ∧ (reshapeNeg1 5 ([2, 4] ++ [5]) = some [([2, 4] : List ℕ).prod, 5]
      ∧ moeLayerForwardShape 5 2 ([2, 4] ++ [5]) ⟨0, 3⟩
        = some ([2, 4] ++ [5], (0 : ℚ) + 2, ⟨0, 3 + 1⟩)) :=
  ⟨by decide, moe_layer_forward_leading_dims 5 [2, 4] 2 ⟨0, 3⟩ (by decide)⟩

/-- Softmax over a two-entry last dimension, as applied by
`F.softmax(combine_coef, dim=-1)` in `MoeModule.forward` (`layers.py`
line 205).  The exponential (an external tensor primitive, transcendental
over `ℚ`) is abstracted as a function `ex`; every property proved below only
uses its strict positivity, which the real exponential satisfies. -/
def softmax2 (ex : ℚ → ℚ) (a b : ℚ) : ℚ × ℚ :=
  (ex a / (ex a + ex b), ex b / (ex a + ex b))

/-- The learned 2-way residual gate `self.residual_combine`, an
`nn.Linear(dim_model, 2)` (`layers.py` line 185): weight and bias. -/
structure ResidualGate (D : ℕ) where
  weight : Fin 2 → Fin D → ℚ
  bias : Fin 2 → ℚ

/-- Application of the residual 2-way linear gate to one token vector
(`layers.py` line 204): `combine_coef = self.residual_combine(inputs)`. -/
def residualGateApply {D : ℕ} (g : ResidualGate D) (x : Fin D → ℚ) :
    Fin 2 → ℚ :=
  fun j => (∑ k, g.weight j k * x k) + g.bias j

/-- The per-token softmax branch coefficients of the residual blend
(`layers.py` lines 204-205). -/
def residualCoef {N D : ℕ} (ex : ℚ → ℚ) (g : ResidualGate D)
    (inputs : Fin N → Fin D → ℚ) (n : Fin N) : ℚ × ℚ :=
  softmax2 ex (residualGateApply g (inputs n) 0) (residualGateApply g (inputs n) 1)

/-- Embedding of `MoeModule.forward` (`layers.py` lines 199-210): the inner
MoE layer produces `(moe_output, l_aux)`; without the residual branch the
pair is returned as is; with it, the output is blended per token as
`moe_output * coef[..., 0:1] + residual_output * coef[..., 1:]` where the
coefficients are the softmax of the learned 2-way gate, and the loss
component is passed through. -/
def moeModuleForward {N D : ℕ} (ex : ℚ → ℚ) (use_residual : Bool)
    (moe_layer : (Fin N → Fin D → ℚ) → (Fin N → Fin D → ℚ) × ℚ)
    (residual_module : (Fin N → Fin D → ℚ) → Fin N → Fin D → ℚ)
    (residual_combine : ResidualGate D)
    (inputs : Fin N → Fin D → ℚ) : (Fin N → Fin D → ℚ) × ℚ :=
  let moe_output := (moe_layer inputs).1
  let l_aux := (moe_layer inputs).2
  if use_residual then
    let residual_output := residual_module inputs
    (fun n d => moe_output n d * (residualCoef ex residual_combine inputs n).1
        + residual_output n d * (residualCoef ex residual_combine inputs n).2,
      l_aux)
  else
    (moe_output, l_aux)

/-- C7. Without the residual branch, `MoeModule.forward` returns the inner
MoE layer's output unchanged; with it, every token's output is a convex
combination of the MoE output and the residual output: the two branch
coefficients come from a softmax, are nonnegative and sum to `1`
(given only that the abstracted exponential is strictly positive). -/
theorem moe_module_residual_blend {N D : ℕ} (ex : ℚ → ℚ)
    (moe_layer : (Fin N → Fin D → ℚ) → (Fin N → Fin D → ℚ) × ℚ)
    (residual_module : (Fin N → Fin D → ℚ) → Fin N → Fin D → ℚ)
    (residual_combine : ResidualGate D) (inputs : Fin N → Fin D → ℚ)
    (hex : ∀ x, 0 < ex x) :
    (moeModuleForward ex false moe_layer residual_module residual_combine
        inputs).1 = (moe_layer inputs).1
    ∧ ∀ n : Fin N,
        0 ≤ (residualCoef ex residual_combine inputs n).1
        ∧ 0 ≤ (residualCoef ex residual_combine inputs n).2
        ∧ (residualCoef ex residual_combine inputs n).1
            + (residualCoef ex residual_combine inputs n).2 = 1
        ∧ ∀ d, (moeModuleForward ex true moe_layer residual_module
              residual_combine inputs).1 n d
            = (moe_layer inputs).1 n d * (residualCoef ex residual_combine inputs n).1
              + residual_module inputs n d * (residualCoef ex residual_combine inputs n).2 := by
  refine ⟨rfl, fun n => ?_⟩
  set a := residualGateApply residual_combine (inputs n) 0 with ha
  set b := residualGateApply residual_combine (inputs n) 1 with hb
  have hsum : 0 < ex a + ex b := add_pos (hex a) (hex b)
  have hcoef : residualCoef ex residual_combine inputs n
      = (ex a / (ex a + ex b), ex b / (ex a + ex b)) := rfl
  refine ⟨?_, ?_, ?_, fun d => rfl⟩
  · rw [hcoef]
    exact div_nonneg (hex a).le hsum.le
  · rw [hcoef]
    exact div_nonneg (hex b).le hsum.le
  · rw [hcoef]
    show ex a / (ex a + ex b) + ex b / (ex a + ex b) = 1
    rw [div_add_div_same, div_self hsum.ne']

/-- C7 witness: with the constant positive function standing in for the
exponential, a one-token one-dimensional instance: both branch weights are
nonnegative and sum to one, and the blended output is their convex
combination of the two branches. -/
theorem moe_module_residual_blend_witness :
    (∀ _x : ℚ, 0 < (2 : ℚ))
    ∧ ((moeModuleForward (fun _ => 2) false (fun v => (v, 9))
          (fun v => v) ⟨fun _ _ => 1, fun _ => 0⟩ (fun _ _ : Fin 1 => 6)).1
        = ((fun v => (v, 9)) (fun _ _ : Fin 1 => (6 : ℚ))).1
      ∧ ∀ n : Fin 1,
          0 ≤ (residualCoef (fun _ => 2) ⟨fun _ _ => 1, fun _ => 0⟩
              (fun _ _ : Fin 1 => 6) n).1
          ∧ 0 ≤ (residualCoef (fun _ => 2) ⟨fun _ _ => 1, fun _ => 0⟩
              (fun _ _ : Fin 1 => 6) n).2
          ∧ (residualCoef (fun _ => 2) ⟨fun _ _ => 1, fun _ => 0⟩
              (fun _ _ : Fin 1 => 6) n).1
            + (residualCoef (fun _ => 2) ⟨fun _ _ => 1, fun _ => 0⟩
              (fun _ _ : Fin 1 => 6) n).2 = 1
          ∧ ∀ d, (moeModuleForward (fun _ => 2) true (fun v => (v, 9))
                (fun v => v) ⟨fun _ _ => 1, fun _ => 0⟩
                (fun _ _ : Fin 1 => 6)).1 n d
              = ((fun v => (v, 9)) (fun _ _ : Fin 1 => (6 : ℚ))).1 n d
                  * (residualCoef (fun _ => 2) ⟨fun _ _ => 1, fun _ => 0⟩
                    (fun _ _ : Fin 1 => 6) n).1
                + (fun v => v) (fun _ _ : Fin 1 => (6 : ℚ)) n d
                  * (residualCoef (fun _ => 2) ⟨fun _ _ => 1, fun _ => 0⟩
                    (fun _ _ : Fin 1 => 6) n).2) :=
  ⟨fun _ => by norm_num,
    moe_module_residual_blend (fun _ => 2) (fun v => (v, 9)) (fun v => v)
      ⟨fun _ _ => 1, fun _ => 0⟩ (fun _ _ : Fin 1 => 6)
      (fun _ => by norm_num)⟩

/-- C9. The residual blend is a frame effect on the output only:
`MoeModule.forward` returns the auxiliary loss of the inner MoE layer call
unchanged, whether or not the residual branch is enabled. -/
theorem moe_module_loss_passthrough {N D : ℕ} (ex : ℚ → ℚ)
    (use_residual : Bool)
    (moe_layer : (Fin N → Fin D → ℚ) → (Fin N → Fin D → ℚ) × ℚ)
    (residual_module : (Fin N → Fin D → ℚ) → Fin N → Fin D → ℚ)
    (residual_combine : ResidualGate D) (inputs : Fin N → Fin D → ℚ) :
    (moeModuleForward ex use_residual moe_layer residual_module
        residual_combine inputs).2 = (moe_layer inputs).2 := by
  cases use_residual <;> rfl

end ColossalMoe
